import Mathlib

/-!
Verification of the MCMC sampling core (Metropolis-Hastings, Hamiltonian
Monte Carlo, NUTS) of the academic-presentations repository.

The Python sources are shallowly embedded as follows:

* Real (float) arithmetic is modelled over an arbitrary `LinearOrderedField F`;
  the transcendental library functions the code calls (`np.exp`, `np.log`,
  `np.sqrt`, `**`) are passed in as abstract function parameters
  (`fexp`, `flog`, `fsqrt`, `fpow`), exactly as the code treats them as
  black boxes.
* State vectors (`np.ndarray` of a fixed dimension) are `Fin dim → F`.
* Random draws (`np.random.uniform`, `np.random.randn`, `np.random.rand`)
  are modelled as input streams `ℕ → F` / `ℕ → (Fin dim → F)`; the NUTS
  tree search threads an explicit counter through the single `rand` stream,
  one index per `np.random.rand()` call.
* IEEE-754 special values (`NaN`, `±inf`), which matter for the
  error-handling behaviour of the acceptance step, are modelled by the
  dedicated type `Fp` below together with the IEEE propagation rules for
  negation, addition, `exp` and `<`, plus Python's asymmetric `min`.
-/

/-- Python's two-argument `min`: `min(a, b)` returns `b` if `b < a` else `a`.
For a linear order this is the ordinary minimum, but on floats it is
asymmetric in the presence of NaN. -/
def pymin {F : Type} [LinearOrder F] (a b : F) : F :=
  if b < a then b else a

/-- Take every `t`-th element of a list, starting with the head: the
embedding of the Python extended slice `xs[::t]` (for `t ≥ 1`). -/
def everyNth {α : Type} (t : ℕ) : List α → List α
  | [] => []
  | x :: xs => x :: everyNth t (List.drop (t - 1) xs)
termination_by l => l.length
decreasing_by
  simp only [List.length_drop, List.length_cons]
  omega

/-- The Python slice `xs[b::t]`. -/
def pySlice {α : Type} (xs : List α) (b t : ℕ) : List α :=
  everyNth t (List.drop b xs)

/-! ## IEEE-754 special values

`Fp` models a double as either a finite value (represented by a rational),
`+inf`, `-inf`, or `NaN`, with the IEEE propagation rules used by the
acceptance computations: negation, addition (hence subtraction), `exp`,
and the comparison `<` (which is false whenever a NaN is involved).
The value of `exp` on finite arguments is irrelevant to the claims and is
supplied as a parameter `qexp`. -/

inductive Fp where
  | fin (x : ℚ)
  | pinf
  | ninf
  | nan
deriving DecidableEq

namespace Fp

/-- IEEE negation. -/
def neg : Fp → Fp
  | fin x => fin (-x)
  | pinf => ninf
  | ninf => pinf
  | nan => nan

/-- IEEE addition: `inf + (-inf) = NaN`, NaN propagates. -/
def add : Fp → Fp → Fp
  | nan, _ => nan
  | _, nan => nan
  | fin x, fin y => fin (x + y)
  | fin _, pinf => pinf
  | fin _, ninf => ninf
  | pinf, fin _ => pinf
  | pinf, pinf => pinf
  | pinf, ninf => nan
  | ninf, fin _ => ninf
  | ninf, ninf => ninf
  | ninf, pinf => nan

/-- IEEE subtraction, as computed by `a - b = a + (-b)`. -/
def sub (a b : Fp) : Fp := add a (neg b)

/-- `np.exp` on special values: `exp(-inf) = 0`, `exp(+inf) = +inf`,
`exp(NaN) = NaN`; on finite arguments it is the abstract `qexp`. -/
def fexp (qexp : ℚ → ℚ) : Fp → Fp
  | fin x => fin (qexp x)
  | pinf => pinf
  | ninf => fin 0
  | nan => nan

/-- The IEEE `<` comparison: any comparison involving NaN is false. -/
def flt : Fp → Fp → Bool
  | nan, _ => false
  | _, nan => false
  | fin x, fin y => decide (x < y)
  | fin _, pinf => true
  | fin _, ninf => false
  | pinf, _ => false
  | ninf, ninf => false
  | ninf, _ => true

/-- Python's `min(a, b)` on floats: returns `b` only when `b < a` holds,
so `min(1.0, NaN) = 1.0`. -/
def pyminFp (a b : Fp) : Fp :=
  if flt b a then b else a

end Fp

/-- `MetropolisHastings.acceptance_probability` evaluated with IEEE
special-value semantics: `min(1.0, np.exp(logp(proposed) - logp(current)))`. -/
def mhAcceptFp {S : Type} (qexp : ℚ → ℚ) (logp : S → Fp) (cur prop : S) : Fp :=
  Fp.pyminFp (Fp.fin 1) (Fp.fexp qexp (Fp.sub (logp prop) (logp cur)))

/-- One accept/reject step of `MetropolisHastings.sample` with IEEE
semantics: `all_samples[i] = proposed if uniform() < alpha else current`. -/
def mhStepFp {S : Type} (qexp : ℚ → ℚ) (logp : S → Fp) (cur prop : S)
    (u : Fp) : S :=
  if Fp.flt u (mhAcceptFp qexp logp cur prop) then prop else cur

/-- The HMC acceptance probability `min(1.0, np.exp(-H_proposed + H_current))`
with IEEE special-value semantics. -/
def hmcAcceptFp (qexp : ℚ → ℚ) (Hcur Hprop : Fp) : Fp :=
  Fp.pyminFp (Fp.fin 1) (Fp.fexp qexp (Fp.add (Fp.neg Hprop) Hcur))

/-- One accept/reject step of `HamiltonianMC.sample` with IEEE semantics. -/
def hmcStepFp {S : Type} (qexp : ℚ → ℚ) (Hcur Hprop : Fp) (cur prop : S)
    (u : Fp) : S :=
  if Fp.flt u (hmcAcceptFp qexp Hcur Hprop) then prop else cur

/-! ## The field-parametric model

`F` is the scalar type (floats, idealized), `dim` the state dimension,
`fexp` the abstract `np.exp`. -/

section FieldModel

variable {F : Type} [LinearOrderedField F] {dim : ℕ}

/-- `0.5 * np.sum(p ** 2)`, resp. `np.dot(x, y)`. -/
def dotP (x y : Fin dim → F) : F := ∑ i, x i * y i

/-- The sampler object created by `MetropolisHastings.__init__`: the two
constructor arguments are stored unchanged, `samples` and
`acceptance_rate` are initialized to `None`.  No validation is performed. -/
structure MetropolisHastings (F : Type) (dim : ℕ) where
  target_log_density : (Fin dim → F) → F
  proposal_std : F
  samples : Option (List (Fin dim → F))
  acceptance_rate : Option F

/-- `MetropolisHastings.__init__`. -/
def MetropolisHastings.init (f : (Fin dim → F) → F) (proposal_std : F) :
    MetropolisHastings F dim :=
  ⟨f, proposal_std, none, none⟩

/-- `MetropolisHastings.acceptance_probability`:
`min(1.0, np.exp(logp(proposed) - logp(current)))`. -/
def mhAccept (fexp : F → F) (logp : (Fin dim → F) → F)
    (cur prop : Fin dim → F) : F :=
  pymin 1 (fexp (logp prop - logp cur))

/-- The state `all_samples[i]` of the `MetropolisHastings.sample` loop.
`gauss i` is the `np.random.normal(0, 1, size=dim)` draw of iteration `i`
(so the proposal is `current + proposal_std • gauss i`), `unif i` the
`np.random.uniform()` draw. -/
def mhState (fexp : F → F) (logp : (Fin dim → F) → F) (sigma : F)
    (gauss : ℕ → Fin dim → F) (unif : ℕ → F) (x0 : Fin dim → F) :
    ℕ → Fin dim → F
  | 0 => x0
  | i + 1 =>
    let cur := mhState fexp logp sigma gauss unif x0 i
    let prop := cur + sigma • gauss (i + 1)
    if unif (i + 1) < mhAccept fexp logp cur prop then prop else cur

/-- Whether the step writing `all_samples[i]` (for `i ≥ 1`) accepted. -/
def mhAccepts (fexp : F → F) (logp : (Fin dim → F) → F) (sigma : F)
    (gauss : ℕ → Fin dim → F) (unif : ℕ → F) (x0 : Fin dim → F)
    (i : ℕ) : Bool :=
  let cur := mhState fexp logp sigma gauss unif x0 i
  decide (unif (i + 1) < mhAccept fexp logp cur (cur + sigma • gauss (i + 1)))

/-- The value of the `accepted` counter after the steps writing
`all_samples[1] .. all_samples[t]`. -/
def mhAcceptedCount (fexp : F → F) (logp : (Fin dim → F) → F) (sigma : F)
    (gauss : ℕ → Fin dim → F) (unif : ℕ → F) (x0 : Fin dim → F) :
    ℕ → ℕ
  | 0 => 0
  | t + 1 =>
    mhAcceptedCount fexp logp sigma gauss unif x0 t +
      (if mhAccepts fexp logp sigma gauss unif x0 t then 1 else 0)

/-- The internal `all_samples` array of `MetropolisHastings.sample` with
`total` rows. -/
def mhAllSamples (fexp : F → F) (logp : (Fin dim → F) → F) (sigma : F)
    (gauss : ℕ → Fin dim → F) (unif : ℕ → F) (x0 : Fin dim → F)
    (total : ℕ) : List (Fin dim → F) :=
  (List.range total).map (mhState fexp logp sigma gauss unif x0)

/-- `MetropolisHastings.sample`: runs `burn_in + n_samples * thin`
iterations, stores `acceptance_rate = accepted / total_iterations` and the
sliced chain `all_samples[burn_in::thin]` on the object, and returns the
sliced chain. -/
def MetropolisHastings.sample (mh : MetropolisHastings F dim)
    (fexp : F → F) (gauss : ℕ → Fin dim → F) (unif : ℕ → F)
    (n_samples : ℕ) (x0 : Fin dim → F) (burn_in thin : ℕ) :
    MetropolisHastings F dim × List (Fin dim → F) :=
  let total := burn_in + n_samples * thin
  let all := mhAllSamples fexp mh.target_log_density mh.proposal_std
    gauss unif x0 total
  let rate : F := (mhAcceptedCount fexp mh.target_log_density mh.proposal_std
    gauss unif x0 (total - 1) : ℕ) / (total : F)
  let sliced := pySlice all burn_in thin
  (⟨mh.target_log_density, mh.proposal_std, some sliced, some rate⟩, sliced)

/-- The sampler object created by `HamiltonianMC.__init__`: all four
constructor arguments stored unchanged, no validation. -/
structure HamiltonianMC (F : Type) (dim : ℕ) where
  log_density : (Fin dim → F) → F
  grad_log_density : (Fin dim → F) → Fin dim → F
  epsilon : F
  L : ℕ
  samples : Option (List (Fin dim → F))
  acceptance_rate : Option F

/-- `HamiltonianMC.__init__`. -/
def HamiltonianMC.init (logp : (Fin dim → F) → F)
    (grad : (Fin dim → F) → Fin dim → F) (epsilon : F) (L : ℕ) :
    HamiltonianMC F dim :=
  ⟨logp, grad, epsilon, L, none, none⟩

/-- The `L-1` full position/momentum steps in the middle of
`HamiltonianMC.leapfrog`. -/
def leapfrogLoop (grad : (Fin dim → F) → Fin dim → F) (eps : F) :
    ℕ → (Fin dim → F) × (Fin dim → F) → (Fin dim → F) × (Fin dim → F)
  | 0, s => s
  | k + 1, s =>
    let q := s.1 + eps • s.2
    let p := s.2 + eps • grad q
    leapfrogLoop grad eps k (q, p)

/-- `HamiltonianMC.leapfrog`: half momentum step, `L-1` full
position/momentum steps, final full position step, final half momentum
step, momentum negation. -/
def HamiltonianMC.leapfrog (grad : (Fin dim → F) → Fin dim → F) (eps : F)
    (L : ℕ) (q p : Fin dim → F) : (Fin dim → F) × (Fin dim → F) :=
  let p1 := p + (eps / 2) • grad q
  let s := leapfrogLoop grad eps (L - 1) (q, p1)
  let q3 := s.1 + eps • s.2
  let p3 := s.2 + (eps / 2) • grad q3
  (q3, -p3)

/-- `hamiltonian(q, p) = -log_density(q) + 0.5 * np.sum(p ** 2)`. -/
def hamiltonianF (logp : (Fin dim → F) → F) (q p : Fin dim → F) : F :=
  -(logp q) + (1 / 2 : F) * dotP p p

/-- The state `all_samples[i]` of the `HamiltonianMC.sample` loop.
`prand i` is the fresh momentum `np.random.randn(dim)` of iteration `i`,
`unif i` the `np.random.uniform()` draw. -/
def hmcState (fexp : F → F) (logp : (Fin dim → F) → F)
    (grad : (Fin dim → F) → Fin dim → F) (eps : F) (L : ℕ)
    (prand : ℕ → Fin dim → F) (unif : ℕ → F) (x0 : Fin dim → F) :
    ℕ → Fin dim → F
  | 0 => x0
  | i + 1 =>
    let q := hmcState fexp logp grad eps L prand unif x0 i
    let p := prand (i + 1)
    let Hcur := hamiltonianF logp q p
    let s := HamiltonianMC.leapfrog grad eps L q p
    let Hprop := hamiltonianF logp s.1 s.2
    if unif (i + 1) < pymin 1 (fexp (-Hprop + Hcur)) then s.1 else q

/-- Whether the step writing `all_samples[i]` (for `i ≥ 1`) accepted. -/
def hmcAccepts (fexp : F → F) (logp : (Fin dim → F) → F)
    (grad : (Fin dim → F) → Fin dim → F) (eps : F) (L : ℕ)
    (prand : ℕ → Fin dim → F) (unif : ℕ → F) (x0 : Fin dim → F)
    (i : ℕ) : Bool :=
  let q := hmcState fexp logp grad eps L prand unif x0 i
  let p := prand (i + 1)
  let s := HamiltonianMC.leapfrog grad eps L q p
  decide (unif (i + 1) <
    pymin 1 (fexp (-(hamiltonianF logp s.1 s.2) + hamiltonianF logp q p)))

/-- The `accepted` counter of `HamiltonianMC.sample` after the steps
writing `all_samples[1] .. all_samples[t]`. -/
def hmcAcceptedCount (fexp : F → F) (logp : (Fin dim → F) → F)
    (grad : (Fin dim → F) → Fin dim → F) (eps : F) (L : ℕ)
    (prand : ℕ → Fin dim → F) (unif : ℕ → F) (x0 : Fin dim → F) :
    ℕ → ℕ
  | 0 => 0
  | t + 1 =>
    hmcAcceptedCount fexp logp grad eps L prand unif x0 t +
      (if hmcAccepts fexp logp grad eps L prand unif x0 t then 1 else 0)

/-- The internal `all_samples` array of `HamiltonianMC.sample`. -/
def hmcAllSamples (fexp : F → F) (logp : (Fin dim → F) → F)
    (grad : (Fin dim → F) → Fin dim → F) (eps : F) (L : ℕ)
    (prand : ℕ → Fin dim → F) (unif : ℕ → F) (x0 : Fin dim → F)
    (total : ℕ) : List (Fin dim → F) :=
  (List.range total).map (hmcState fexp logp grad eps L prand unif x0)

/-- `HamiltonianMC.sample`. -/
def HamiltonianMC.sample (hmc : HamiltonianMC F dim) (fexp : F → F)
    (prand : ℕ → Fin dim → F) (unif : ℕ → F)
    (n_samples : ℕ) (x0 : Fin dim → F) (burn_in thin : ℕ) :
    HamiltonianMC F dim × List (Fin dim → F) :=
  let total := burn_in + n_samples * thin
  let all := hmcAllSamples fexp hmc.log_density hmc.grad_log_density
    hmc.epsilon hmc.L prand unif x0 total
  let rate : F := (hmcAcceptedCount fexp hmc.log_density hmc.grad_log_density
    hmc.epsilon hmc.L prand unif x0 (total - 1) : ℕ) / (total : F)
  let sliced := pySlice all burn_in thin
  (⟨hmc.log_density, hmc.grad_log_density, hmc.epsilon, hmc.L,
    some sliced, some rate⟩, sliced)

end FieldModel

/-! ## NUTS -/

section NutsModel

variable {F : Type} [LinearOrderedField F] {dim : ℕ}

/-- The sampler object created by `NUTS.__init__`: the four constructor
arguments stored unchanged, no validation. -/
structure NUTS (F : Type) (dim : ℕ) where
  log_density : (Fin dim → F) → F
  grad_log_density : (Fin dim → F) → Fin dim → F
  epsilon : F
  delta : F
  samples : Option (List (Fin dim → F))
  acceptance_rate : Option F
  epsilon_history : List F

/-- `NUTS.__init__`. -/
def NUTS.init (logp : (Fin dim → F) → F)
    (grad : (Fin dim → F) → Fin dim → F) (epsilon delta : F) :
    NUTS F dim :=
  ⟨logp, grad, epsilon, delta, none, none, []⟩

/-- `NUTS.leapfrog`: one half-momentum / full-position / half-momentum
step (no negation). -/
def nutsLeapfrog (grad : (Fin dim → F) → Fin dim → F) (eps : F)
    (q p : Fin dim → F) : (Fin dim → F) × (Fin dim → F) :=
  let p1 := p + (eps / 2) • grad q
  let q1 := q + eps • p1
  (q1, p1 + (eps / 2) • grad q1)

/-- The twelve-component return value of `NUTS.build_tree`, in the order of
the Python tuple `(q_new, p_new, q_fwd, p_fwd, q_bwd, p_bwd, q_prime,
p_prime, n_prime, s_prime, alpha_prime, n_alpha_prime)`. -/
structure BTree (F : Type) (dim : ℕ) where
  qn : Fin dim → F
  pn : Fin dim → F
  qf : Fin dim → F
  pf : Fin dim → F
  qb : Fin dim → F
  pb : Fin dim → F
  qp : Fin dim → F
  pp : Fin dim → F
  n : ℕ
  s : ℕ
  alpha : F
  nalpha : ℕ

/-- `NUTS.build_tree`, with the recursion depth `j` as the decreasing
argument and the `np.random.rand()` supply threaded through as a stream
index `k` (the second component of the result is the next unused index).
The base case takes one leapfrog step of size `v * epsilon`; the recursive
case builds the first subtree, and only if its continue-flag is 1 builds
the second subtree from the appropriate endpoint, re-samples the proposal
with probability `n2 / max(n1 + n2, 1)`, accumulates the acceptance
statistics and re-evaluates the U-turn condition on the merged endpoints. -/
def build_tree (grad : (Fin dim → F) → Fin dim → F)
    (logp : (Fin dim → F) → F) (fexp : F → F) (rand : ℕ → F) :
    ℕ → (Fin dim → F) → (Fin dim → F) → F → F → F →
      (Fin dim → F) → (Fin dim → F) → ℕ → BTree F dim × ℕ
  | 0, q, p, u, v, eps, q0, p0, k =>
    let s := nutsLeapfrog grad (v * eps) q p
    let H := hamiltonianF logp s.1 s.2
    let H0 := hamiltonianF logp q0 p0
    let nP : ℕ := if u < fexp (-H) then 1 else 0
    let sP : ℕ := if u < fexp (1000 - H) then 1 else 0
    let alphaP := pymin 1 (fexp (-H + H0))
    (⟨s.1, s.2, s.1, s.2, s.1, s.2, s.1, s.2, nP, sP, alphaP, 1⟩, k)
  | j + 1, q, p, u, v, eps, q0, p0, k =>
    let r1 := build_tree grad logp fexp rand j q p u v eps q0 p0 k
    let t1 := r1.1
    let k1 := r1.2
    if t1.s = 1 then
      let r2 :=
        if v = -1 then
          build_tree grad logp fexp rand j t1.qb t1.pb u v eps q0 p0 k1
        else
          build_tree grad logp fexp rand j t1.qf t1.pf u v eps q0 p0 k1
      let t2 := r2.1
      let k2 := r2.2
      let qb := if v = -1 then t2.qn else t1.qb
      let pb := if v = -1 then t2.pn else t1.pb
      let qf := if v = -1 then t1.qf else t2.qf
      let pf := if v = -1 then t1.pf else t2.pf
      let qp := if rand k2 < (t2.n : F) / (max (t1.n + t2.n) 1 : ℕ) then t2.qp
                else t1.qp
      let pp := if rand k2 < (t2.n : F) / (max (t1.n + t2.n) 1 : ℕ) then t2.pp
                else t1.pp
      let alphaP := t1.alpha + t2.alpha
      let nalphaP := t1.nalpha + t2.nalpha
      let delta := qf - qb
      let sP := t2.s * (if 0 ≤ dotP delta pb then 1 else 0) *
        (if 0 ≤ dotP delta pf then 1 else 0)
      let nP := t1.n + t2.n
      (⟨t1.qn, t1.pn, qf, pf, qb, pb, qp, pp, nP, sP, alphaP, nalphaP⟩, k2 + 1)
    else
      (t1, k1)

/-- `max_tree_depth` of `NUTS.sample`. -/
def max_tree_depth : ℕ := 10

/-- The loop state of the per-iteration tree-doubling `while` loop of
`NUTS.sample`: endpoints, current draw `q_new` (with its never-updated
momentum `p_new`), tree depth `j`, valid-state count `n`, continue-flag
`s`, the outer `accepted` counter, the last subtree's acceptance
statistics, and the `np.random.rand()` stream index. -/
structure DLoopState (F : Type) (dim : ℕ) where
  qf : Fin dim → F
  pf : Fin dim → F
  qb : Fin dim → F
  pb : Fin dim → F
  qn : Fin dim → F
  pn : Fin dim → F
  j : ℕ
  n : ℕ
  s : ℕ
  accepted : ℕ
  alpha : F
  nalpha : ℕ
  k : ℕ

/-- One doubling of the `NUTS.sample` inner loop: pick a direction
(`v = 1` iff `rand < 0.5`), extend the tree from the corresponding
endpoint with `build_tree` at the current depth, possibly accept the
subtree proposal with probability `min(1, n_prime / n)`, accumulate `n`,
re-evaluate the U-turn condition on the global endpoints, increment `j`. -/
def nutsDStep (grad : (Fin dim → F) → Fin dim → F)
    (logp : (Fin dim → F) → F) (fexp : F → F) (rand : ℕ → F)
    (u eps : F) (q0 p0 : Fin dim → F) (st : DLoopState F dim) :
    DLoopState F dim :=
  let v : F := if rand st.k < 1 / 2 then 1 else -1
  let r :=
    if v = -1 then
      build_tree grad logp fexp rand st.j st.qb st.pb u v eps q0 p0 (st.k + 1)
    else
      build_tree grad logp fexp rand st.j st.qf st.pf u v eps q0 p0 (st.k + 1)
  let t := r.1
  let k2 := r.2
  let qb := if v = -1 then t.qn else st.qb
  let pb := if v = -1 then t.pn else st.pb
  let qf := if v = -1 then st.qf else t.qf
  let pf := if v = -1 then st.pf else t.pf
  let acc : Bool := t.s = 1 ∧ rand k2 < pymin 1 ((t.n : F) / (st.n : F))
  let qn := if acc then t.qp else st.qn
  let accepted := if acc then st.accepted + 1 else st.accepted
  let k3 := if t.s = 1 then k2 + 1 else k2
  let n := st.n + t.n
  let delta := qf - qb
  let s := t.s * (if 0 ≤ dotP delta pb then 1 else 0) *
    (if 0 ≤ dotP delta pf then 1 else 0)
  ⟨qf, pf, qb, pb, qn, st.pn, st.j + 1, n, s, accepted, t.alpha, t.nalpha, k3⟩

/-- The tree-doubling `while s == 1 and j < max_tree_depth` loop, with an
explicit fuel argument.  `nutsDLoop_fuel_irrelevant` below shows that any
fuel of at least `max_tree_depth - j` gives the same result, i.e. the
`while` loop terminates within `max_tree_depth` doublings. -/
def nutsDLoop (grad : (Fin dim → F) → Fin dim → F)
    (logp : (Fin dim → F) → F) (fexp : F → F) (rand : ℕ → F)
    (u eps : F) (q0 p0 : Fin dim → F) :
    ℕ → DLoopState F dim → DLoopState F dim
  | 0, st => st
  | d + 1, st =>
    if st.s = 1 ∧ st.j < max_tree_depth then
      nutsDLoop grad logp fexp rand u eps q0 p0 d
        (nutsDStep grad logp fexp rand u eps q0 p0 st)
    else st

/-- The per-iteration state of `NUTS.sample` that survives across outer
iterations: the current draw `all_samples[m]`, the working step size
`epsilon`, the dual-averaging accumulators `epsilon_bar` and `H_bar`, the
`accepted` counter, and the `np.random.rand()` stream index. -/
structure NutsIterState (F : Type) (dim : ℕ) where
  q : Fin dim → F
  eps : F
  epsbar : F
  Hbar : F
  accepted : ℕ
  k : ℕ

/-- Dual-averaging constant `gamma = 0.05`. -/
def nutsGamma {F : Type} [LinearOrderedField F] : F := 1 / 20

/-- Dual-averaging constant `t0 = 10`. -/
def nutsT0 {F : Type} [LinearOrderedField F] : F := 10

/-- Dual-averaging constant `kappa = 0.75`. -/
def nutsKappa {F : Type} [LinearOrderedField F] : F := 3 / 4

/-- Iteration `m ≥ 1` of the `NUTS.sample` outer loop: draw a fresh
momentum `prand m`, a slice variable `u = urand m * exp(-H(q, p))`
(embedding `np.random.uniform(0, np.exp(-H))`), run the tree-doubling
loop, record the new draw, and update the dual-averaging state — for
`m ≤ adapt_steps` update `H_bar`, `epsilon` and `epsilon_bar` (the latter
with weight `m ** (-kappa)`), otherwise freeze `epsilon = epsilon_bar`.
`flog`, `fsqrt`, `fpow` are the abstract `np.log`, `np.sqrt` and `**`;
`mu = log(10 * epsilon_initial)` is fixed before the loop. -/
def nutsIter (grad : (Fin dim → F) → Fin dim → F)
    (logp : (Fin dim → F) → F) (fexp flog fsqrt : F → F)
    (fpow : F → F → F) (rand : ℕ → F) (prand : ℕ → Fin dim → F)
    (urand : ℕ → F) (delta : F) (adapt_steps : ℕ) (mu : F)
    (m : ℕ) (st : NutsIterState F dim) : NutsIterState F dim :=
  let q := st.q
  let p := prand m
  let u := urand m * fexp (-(hamiltonianF logp q p))
  let d0 : DLoopState F dim :=
    ⟨q, p, q, p, q, p, 0, 1, 1, st.accepted, 0, 1, st.k⟩
  let dst := nutsDLoop grad logp fexp rand u st.eps q p max_tree_depth d0
  if m ≤ adapt_steps then
    let Hbar := (1 - 1 / ((m : F) + nutsT0)) * st.Hbar +
      (1 / ((m : F) + nutsT0)) * (delta - dst.alpha / (dst.nalpha : F))
    let log_epsilon := mu - (fsqrt (m : F) / nutsGamma) * Hbar
    let eps := fexp log_epsilon
    let epsbar := fexp (fpow (m : F) (-nutsKappa) * log_epsilon +
      (1 - fpow (m : F) (-nutsKappa)) * flog st.epsbar)
    ⟨dst.qn, eps, epsbar, Hbar, dst.accepted, dst.k⟩
  else
    ⟨dst.qn, st.epsbar, st.epsbar, st.Hbar, dst.accepted, dst.k⟩

/-- The state of `NUTS.sample` after iteration `m` (`m = 0` is the state
just before the loop: `all_samples[0] = initial_state`,
`epsilon = eps0` as found by `find_reasonable_epsilon` — abstracted here
as the parameter `eps0` — `epsilon_bar = 1.0`, `H_bar = 0.0`). -/
def nutsStateAt (grad : (Fin dim → F) → Fin dim → F)
    (logp : (Fin dim → F) → F) (fexp flog fsqrt : F → F)
    (fpow : F → F → F) (rand : ℕ → F) (prand : ℕ → Fin dim → F)
    (urand : ℕ → F) (delta : F) (adapt_steps : ℕ)
    (x0 : Fin dim → F) (eps0 : F) : ℕ → NutsIterState F dim
  | 0 => ⟨x0, eps0, 1, 0, 0, 0⟩
  | m + 1 =>
    nutsIter grad logp fexp flog fsqrt fpow rand prand urand delta
      adapt_steps (flog (10 * eps0)) (m + 1)
      (nutsStateAt grad logp fexp flog fsqrt fpow rand prand urand delta
        adapt_steps x0 eps0 m)

/-- The internal `all_samples` array of `NUTS.sample` with `total` rows. -/
def nutsAllSamples (grad : (Fin dim → F) → Fin dim → F)
    (logp : (Fin dim → F) → F) (fexp flog fsqrt : F → F)
    (fpow : F → F → F) (rand : ℕ → F) (prand : ℕ → Fin dim → F)
    (urand : ℕ → F) (delta : F) (adapt_steps : ℕ)
    (x0 : Fin dim → F) (eps0 : F) (total : ℕ) : List (Fin dim → F) :=
  (List.range total).map (fun m =>
    (nutsStateAt grad logp fexp flog fsqrt fpow rand prand urand delta
      adapt_steps x0 eps0 m).q)

/-- The end of `NUTS.sample` (`total = burn_in + n_samples`): store the
chain `all_samples[burn_in:]`, `acceptance_rate = accepted / total`, and
`self.epsilon = epsilon_bar`. -/
def NUTS.sampleResult (nuts : NUTS F dim) (fexp flog fsqrt : F → F)
    (fpow : F → F → F) (rand : ℕ → F) (prand : ℕ → Fin dim → F)
    (urand : ℕ → F) (adapt_steps : ℕ) (n_samples : ℕ)
    (x0 : Fin dim → F) (burn_in : ℕ) (eps0 : F) : NUTS F dim :=
  let total := burn_in + n_samples
  let final := nutsStateAt nuts.grad_log_density nuts.log_density fexp flog
    fsqrt fpow rand prand urand nuts.delta adapt_steps x0 eps0 (total - 1)
  let all := nutsAllSamples nuts.grad_log_density nuts.log_density fexp flog
    fsqrt fpow rand prand urand nuts.delta adapt_steps x0 eps0 total
  { nuts with
    samples := some (all.drop burn_in)
    acceptance_rate := some ((final.accepted : F) / (total : F))
    epsilon := final.epsbar }

end NutsModel

/-! ## Reversibility of the HMC leapfrog integrator -/

section Leapfrog

variable {F : Type} [LinearOrderedField F] {dim : ℕ}

/-- Momentum negation on phase space. -/
def negMom (s : (Fin dim → F) × (Fin dim → F)) :
    (Fin dim → F) × (Fin dim → F) :=
  (s.1, -s.2)

/-- Half-kick: momentum update by `c • grad q`, position unchanged. -/
def halfKick (grad : (Fin dim → F) → Fin dim → F) (c : F)
    (s : (Fin dim → F) × (Fin dim → F)) :
    (Fin dim → F) × (Fin dim → F) :=
  (s.1, s.2 + c • grad s.1)

/-- Drift: position update by `eps • p`, momentum unchanged. -/
def drift (eps : F) (s : (Fin dim → F) × (Fin dim → F)) :
    (Fin dim → F) × (Fin dim → F) :=
  (s.1 + eps • s.2, s.2)

/-- The single kick-drift-kick leapfrog step as a map on phase space. -/
def sstep (grad : (Fin dim → F) → Fin dim → F) (eps : F)
    (s : (Fin dim → F) × (Fin dim → F)) :
    (Fin dim → F) × (Fin dim → F) :=
  nutsLeapfrog grad eps s.1 s.2

end Leapfrog

/-- The MH target used in the C1 counterexample: `NaN` log-density at the
proposed point `true`, finite log-density at the current point `false`. -/
def nanLogDensity : Bool → Fp := fun b => if b then Fp.nan else Fp.fin 0

/-- The zero vector of dimension 0, used to instantiate witnesses. -/
def wVec : Fin 0 → ℚ := fun _ => 0

/-- A concrete doubling-loop state (depth 0, continue-flag 0). -/
def wDSt : DLoopState ℚ 0 :=
  ⟨wVec, wVec, wVec, wVec, wVec, wVec, 0, 1, 0, 0, 0, 1, 0⟩

/-- A concrete NUTS outer-iteration state. -/
def wNSt : NutsIterState ℚ 0 := ⟨wVec, 1, 1, 0, 0, 0⟩

/-- The MH target used in the C1 witness: `-inf` log-density at the
proposed point `true`, finite log-density at the current point `false`. -/
def ninfLogDensity : Bool → Fp := fun b => if b then Fp.ninf else Fp.fin 0

/-! ## Theorems -/

theorem pymin_eq_min {F : Type} [LinearOrder F] (a b : F) :
    pymin a b = min a b := by
  unfold pymin
  rcases lt_or_ge b a with h | h
  · simp [h, min_eq_right h.le]
  · simp [not_lt_of_ge h, min_eq_left h]

theorem everyNth_length {α : Type} (t : ℕ) (ht : 1 ≤ t) :
    ∀ (n : ℕ) (xs : List α), xs.length ≤ n →
      (everyNth t xs).length = (xs.length + t - 1) / t := by
  intro n
  induction n with
  | zero =>
      intro xs hxs
      have hnil : xs = [] := List.eq_nil_of_length_eq_zero (Nat.le_zero.mp hxs)
      subst hnil
      simp [everyNth, Nat.div_eq_of_lt (by omega : t - 1 < t)]
  | succ n ih =>
      intro xs hxs
      cases xs with
      | nil => simp [everyNth, Nat.div_eq_of_lt (by omega : t - 1 < t)]
      | cons x xs =>
          rw [everyNth]
          have hdrop : (List.drop (t - 1) xs).length = xs.length - (t - 1) := by
            simp
          have hlen : (List.drop (t - 1) xs).length ≤ n := by
            simp only [hdrop]
            simp only [List.length_cons] at hxs
            omega
          rw [List.length_cons, ih _ hlen, hdrop]
          rw [List.length_cons]
          rcases le_or_lt (t - 1) xs.length with h | h
          · have h1 : xs.length - (t - 1) + t - 1 = xs.length := by omega
            have h2 : xs.length + 1 + t - 1 = xs.length + t := by omega
            rw [h1, h2, Nat.add_div_right _ (by omega : 0 < t)]
          · have h1 : xs.length - (t - 1) = 0 := by omega
            have h2 : xs.length + 1 + t - 1 = xs.length + t := by omega
            rw [h1, h2, Nat.add_div_right _ (by omega : 0 < t),
                Nat.div_eq_of_lt (by omega : xs.length < t),
                Nat.zero_add, Nat.div_eq_of_lt (by omega : t - 1 < t)]

theorem pySlice_length {α : Type} (xs : List α) (b t : ℕ) (ht : 1 ≤ t) :
    (pySlice xs b t).length = (xs.length - b + t - 1) / t := by
  unfold pySlice
  rw [everyNth_length t ht (List.drop b xs).length _ le_rfl]
  simp

section LeapfrogFacts

variable {F : Type} [LinearOrderedField F] {dim : ℕ}

theorem sstep_eq (grad : (Fin dim → F) → Fin dim → F) (eps : F)
    (s : (Fin dim → F) × (Fin dim → F)) :
    sstep grad eps s = halfKick grad (eps / 2) (drift eps
      (halfKick grad (eps / 2) s)) := rfl

theorem halfKick_rev (grad : (Fin dim → F) → Fin dim → F) (c : F)
    (s : (Fin dim → F) × (Fin dim → F)) :
    halfKick grad c (negMom (halfKick grad c s)) = negMom s := by
  obtain ⟨a, b⟩ := s
  simp only [halfKick, negMom, Prod.mk.injEq]
  exact ⟨trivial, by funext i; simp⟩

theorem drift_rev (eps : F) (s : (Fin dim → F) × (Fin dim → F)) :
    drift eps (negMom (drift eps s)) = negMom s := by
  obtain ⟨a, b⟩ := s
  simp only [drift, negMom, Prod.mk.injEq]
  exact ⟨by funext i; simp, trivial⟩

theorem sstep_rev (grad : (Fin dim → F) → Fin dim → F) (eps : F)
    (s : (Fin dim → F) × (Fin dim → F)) :
    sstep grad eps (negMom (sstep grad eps s)) = negMom s := by
  rw [sstep_eq, sstep_eq, halfKick_rev, drift_rev, halfKick_rev]

theorem sstep_iterate_rev (grad : (Fin dim → F) → Fin dim → F) (eps : F) :
    ∀ (m : ℕ) (s : (Fin dim → F) × (Fin dim → F)),
      (sstep grad eps)^[m] (negMom ((sstep grad eps)^[m] s)) = negMom s := by
  intro m
  induction m with
  | zero => intro s; rfl
  | succ m ih =>
      intro s
      rw [Function.iterate_succ_apply' (sstep grad eps) m s,
        Function.iterate_succ_apply (sstep grad eps) m,
        sstep_rev, ih]

theorem leapfrogLoop_finish (grad : (Fin dim → F) → Fin dim → F) (eps : F) :
    ∀ (k : ℕ) (q p : Fin dim → F),
      (fun s : (Fin dim → F) × (Fin dim → F) =>
          (s.1 + eps • s.2, s.2 + (eps / 2) • grad (s.1 + eps • s.2)))
        (leapfrogLoop grad eps k (q, p + (eps / 2) • grad q)) =
      (sstep grad eps)^[k + 1] (q, p) := by
  intro k
  induction k with
  | zero =>
      intro q p
      rw [Function.iterate_one]
      rfl
  | succ k ih =>
      intro q p
      have hunf : leapfrogLoop grad eps (k + 1) (q, p + (eps / 2) • grad q) =
          leapfrogLoop grad eps k
            ((sstep grad eps (q, p)).1,
             (sstep grad eps (q, p)).2 +
               (eps / 2) • grad ((sstep grad eps (q, p)).1)) := by
        show leapfrogLoop grad eps k
            (q + eps • (p + (eps / 2) • grad q),
             p + (eps / 2) • grad q +
               eps • grad (q + eps • (p + (eps / 2) • grad q))) = _
        have h2 : p + (eps / 2) • grad q +
            eps • grad (q + eps • (p + (eps / 2) • grad q)) =
            (sstep grad eps (q, p)).2 +
              (eps / 2) • grad ((sstep grad eps (q, p)).1) := by
          show _ = p + (eps / 2) • grad q +
            (eps / 2) • grad (q + eps • (p + (eps / 2) • grad q)) +
            (eps / 2) • grad (q + eps • (p + (eps / 2) • grad q))
          funext i
          simp
          ring
        rw [h2]
        rfl
      rw [hunf, ih ((sstep grad eps (q, p)).1) ((sstep grad eps (q, p)).2),
        ← Function.iterate_succ_apply (sstep grad eps) (k + 1) (q, p)]

theorem leapfrog_eq_iterate (grad : (Fin dim → F) → Fin dim → F) (eps : F)
    (L : ℕ) (q p : Fin dim → F) :
    HamiltonianMC.leapfrog grad eps L q p =
      negMom ((sstep grad eps)^[L - 1 + 1] (q, p)) := by
  rw [← leapfrogLoop_finish grad eps (L - 1) q p]
  rfl

/-- C6: in exact arithmetic, `HamiltonianMC.leapfrog` (an L-step leapfrog
trajectory ending with a momentum negation) is an involution: applying it
to its own output returns exactly the original `(q, p)`, for every step
size, every number of steps `L`, and every gradient function. -/
theorem c6_leapfrog_involution {F : Type} [LinearOrderedField F] {dim : ℕ}
    (grad : (Fin dim → F) → Fin dim → F) (eps : F) (L : ℕ)
    (q p : Fin dim → F) :
    HamiltonianMC.leapfrog grad eps L
      (HamiltonianMC.leapfrog grad eps L q p).1
      (HamiltonianMC.leapfrog grad eps L q p).2 = (q, p) := by
  rw [leapfrog_eq_iterate, leapfrog_eq_iterate]
  have hpair : (((negMom ((sstep grad eps)^[L - 1 + 1] (q, p))).1,
      (negMom ((sstep grad eps)^[L - 1 + 1] (q, p))).2) :
        (Fin dim → F) × (Fin dim → F)) =
      negMom ((sstep grad eps)^[L - 1 + 1] (q, p)) := rfl
  rw [hpair, sstep_iterate_rev]
  simp [negMom]

end LeapfrogFacts

section ClaimTheorems

variable {F : Type} [LinearOrderedField F] {dim : ℕ}

theorem mhAcceptedCount_le (fexp : F → F) (logp : (Fin dim → F) → F)
    (sigma : F) (gauss : ℕ → Fin dim → F) (unif : ℕ → F)
    (x0 : Fin dim → F) : ∀ t, mhAcceptedCount fexp logp sigma gauss unif x0 t ≤ t := by
  intro t
  induction t with
  | zero => simp [mhAcceptedCount]
  | succ t ih =>
      rw [mhAcceptedCount]
      split <;> omega

theorem hmcAcceptedCount_le (fexp : F → F) (logp : (Fin dim → F) → F)
    (grad : (Fin dim → F) → Fin dim → F) (eps : F) (L : ℕ)
    (prand : ℕ → Fin dim → F) (unif : ℕ → F) (x0 : Fin dim → F) :
    ∀ t, hmcAcceptedCount fexp logp grad eps L prand unif x0 t ≤ t := by
  intro t
  induction t with
  | zero => simp [hmcAcceptedCount]
  | succ t ih =>
      rw [hmcAcceptedCount]
      split <;> omega

/-- C7: for `n_samples = N`, `burn_in = B`, `thin = t ≥ 1` with
`B + N*t ≥ 1`, both `MetropolisHastings.sample` and `HamiltonianMC.sample`
build an internal chain of exactly `B + N*t` states and return its Python
slice `[B::t]`, which has exactly `N` rows (each row being a vector of
dimension `dim` by construction). -/
theorem c7_sample_slicing (fexp : F → F) (f : (Fin dim → F) → F)
    (sigma : F) (grad : (Fin dim → F) → Fin dim → F) (eps : F) (L : ℕ)
    (gauss prand : ℕ → Fin dim → F) (unif : ℕ → F)
    (N B t : ℕ) (ht : 1 ≤ t) (htot : 1 ≤ B + N * t) (x0 : Fin dim → F) :
    (mhAllSamples fexp f sigma gauss unif x0 (B + N * t)).length = B + N * t
    ∧ ((MetropolisHastings.init f sigma).sample fexp gauss unif N x0 B t).2 =
        pySlice (mhAllSamples fexp f sigma gauss unif x0 (B + N * t)) B t
    ∧ ((MetropolisHastings.init f sigma).sample fexp gauss unif N x0 B t).2.length
        = N
    ∧ (hmcAllSamples fexp f grad eps L prand unif x0 (B + N * t)).length
        = B + N * t
    ∧ ((HamiltonianMC.init f grad eps L).sample fexp prand unif N x0 B t).2 =
        pySlice (hmcAllSamples fexp f grad eps L prand unif x0 (B + N * t)) B t
    ∧ ((HamiltonianMC.init f grad eps L).sample fexp prand unif N x0 B t).2.length
        = N := by
  have hslice : ∀ (xs : List (Fin dim → F)), xs.length = B + N * t →
      (pySlice xs B t).length = N := by
    intro xs hxs
    rw [pySlice_length xs B t ht, hxs]
    have heq : B + N * t - B + t - 1 = t - 1 + N * t := by omega
    rw [heq, Nat.add_mul_div_right _ _ (by omega : 0 < t),
      Nat.div_eq_of_lt (by omega : t - 1 < t)]
    omega
  have hmh : (mhAllSamples fexp f sigma gauss unif x0 (B + N * t)).length
      = B + N * t := by simp [mhAllSamples]
  have hhmc : (hmcAllSamples fexp f grad eps L prand unif x0 (B + N * t)).length
      = B + N * t := by simp [hmcAllSamples]
  exact ⟨hmh, rfl, hslice _ hmh, hhmc, rfl, hslice _ hhmc⟩

/-- C10: with `T = burn_in + n_samples * thin ≥ 1` total iterations, the
`accepted` counter of `MetropolisHastings.sample` and `HamiltonianMC.sample`
can reach at most `T - 1` (only `T - 1` accept/reject decisions are made,
while the stored rate divides by all `T` recorded states including the
initial one), so the stored `acceptance_rate = accepted / T` is at most
`(T - 1)/T` and strictly below `1`. -/
theorem c10_acceptance_rate_lt_one (fexp : F → F) (f : (Fin dim → F) → F)
    (sigma : F) (grad : (Fin dim → F) → Fin dim → F) (eps : F) (L : ℕ)
    (gauss prand : ℕ → Fin dim → F) (unif : ℕ → F)
    (N B t : ℕ) (htot : 1 ≤ B + N * t) (x0 : Fin dim → F) :
    ((MetropolisHastings.init f sigma).sample fexp gauss unif N x0 B t).1.acceptance_rate
        = some ((mhAcceptedCount fexp f sigma gauss unif x0 (B + N * t - 1) : F)
          / ((B + N * t : ℕ) : F))
    ∧ mhAcceptedCount fexp f sigma gauss unif x0 (B + N * t - 1) ≤ B + N * t - 1
    ∧ (mhAcceptedCount fexp f sigma gauss unif x0 (B + N * t - 1) : F)
        / ((B + N * t : ℕ) : F)
        ≤ (((B + N * t : ℕ) : F) - 1) / ((B + N * t : ℕ) : F)
    ∧ (mhAcceptedCount fexp f sigma gauss unif x0 (B + N * t - 1) : F)
        / ((B + N * t : ℕ) : F) < 1
    ∧ ((HamiltonianMC.init f grad eps L).sample fexp prand unif N x0 B t).1.acceptance_rate
        = some ((hmcAcceptedCount fexp f grad eps L prand unif x0 (B + N * t - 1) : F)
          / ((B + N * t : ℕ) : F))
    ∧ hmcAcceptedCount fexp f grad eps L prand unif x0 (B + N * t - 1)
        ≤ B + N * t - 1
    ∧ (hmcAcceptedCount fexp f grad eps L prand unif x0 (B + N * t - 1) : F)
        / ((B + N * t : ℕ) : F)
        ≤ (((B + N * t : ℕ) : F) - 1) / ((B + N * t : ℕ) : F)
    ∧ (hmcAcceptedCount fexp f grad eps L prand unif x0 (B + N * t - 1) : F)
        / ((B + N * t : ℕ) : F) < 1 := by
  have hTpos : (0 : F) < ((B + N * t : ℕ) : F) := by
    exact_mod_cast Nat.pos_of_ne_zero (by omega)
  have hcast : ((B + N * t - 1 : ℕ) : F) = ((B + N * t : ℕ) : F) - 1 := by
    rw [Nat.cast_sub htot, Nat.cast_one]
  have hbound : ∀ c : ℕ, c ≤ B + N * t - 1 →
      (c : F) / ((B + N * t : ℕ) : F)
        ≤ (((B + N * t : ℕ) : F) - 1) / ((B + N * t : ℕ) : F)
      ∧ (c : F) / ((B + N * t : ℕ) : F) < 1 := by
    intro c hc
    have hle : (c : F) ≤ ((B + N * t : ℕ) : F) - 1 := by
      rw [← hcast]
      exact_mod_cast hc
    have hlt : (c : F) < ((B + N * t : ℕ) : F) := by
      exact_mod_cast (by omega : c < B + N * t)
    constructor
    · exact div_le_div_of_nonneg_right hle hTpos.le
    · exact (div_lt_one hTpos).mpr hlt
  have hmc1 := mhAcceptedCount_le fexp f sigma gauss unif x0 (B + N * t - 1)
  have hmc2 := hmcAcceptedCount_le fexp f grad eps L prand unif x0 (B + N * t - 1)
  refine ⟨rfl, hmc1, (hbound _ hmc1).1, (hbound _ hmc1).2,
    rfl, hmc2, (hbound _ hmc2).1, (hbound _ hmc2).2⟩

theorem mhAllSamples_get (fexp : F → F) (f : (Fin dim → F) → F) (sigma : F)
    (gauss : ℕ → Fin dim → F) (unif : ℕ → F) (x0 : Fin dim → F)
    (T i : ℕ) (h : i < T) :
    (mhAllSamples fexp f sigma gauss unif x0 T)[i]? =
      some (mhState fexp f sigma gauss unif x0 i) := by
  simp [mhAllSamples, List.getElem?_map, List.getElem?_range, h]

theorem hmcAllSamples_get (fexp : F → F) (f : (Fin dim → F) → F)
    (grad : (Fin dim → F) → Fin dim → F) (eps : F) (L : ℕ)
    (prand : ℕ → Fin dim → F) (unif : ℕ → F) (x0 : Fin dim → F)
    (T i : ℕ) (h : i < T) :
    (hmcAllSamples fexp f grad eps L prand unif x0 T)[i]? =
      some (hmcState fexp f grad eps L prand unif x0 i) := by
  simp [hmcAllSamples, List.getElem?_map, List.getElem?_range, h]

theorem nutsDStep_accepted (grad : (Fin dim → F) → Fin dim → F)
    (logp : (Fin dim → F) → F) (fexp : F → F) (rand : ℕ → F)
    (u eps : F) (q0 p0 : Fin dim → F) (st : DLoopState F dim) :
    st.accepted ≤ (nutsDStep grad logp fexp rand u eps q0 p0 st).accepted
    ∧ ((nutsDStep grad logp fexp rand u eps q0 p0 st).accepted = st.accepted →
        (nutsDStep grad logp fexp rand u eps q0 p0 st).qn = st.qn)
    ∧ (nutsDStep grad logp fexp rand u eps q0 p0 st).j = st.j + 1 := by
  dsimp only [nutsDStep]
  split_ifs <;> refine ⟨by omega, fun hacc => ?_, rfl⟩ <;>
    first | rfl | exact absurd hacc (by omega)

theorem nutsDLoop_accepted (grad : (Fin dim → F) → Fin dim → F)
    (logp : (Fin dim → F) → F) (fexp : F → F) (rand : ℕ → F)
    (u eps : F) (q0 p0 : Fin dim → F) :
    ∀ (d : ℕ) (st : DLoopState F dim),
      st.accepted ≤ (nutsDLoop grad logp fexp rand u eps q0 p0 d st).accepted
      ∧ ((nutsDLoop grad logp fexp rand u eps q0 p0 d st).accepted
            = st.accepted →
          (nutsDLoop grad logp fexp rand u eps q0 p0 d st).qn = st.qn) := by
  intro d
  induction d with
  | zero => exact fun st => ⟨le_rfl, fun _ => rfl⟩
  | succ d ih =>
      intro st
      rw [nutsDLoop]
      split_ifs with h
      · obtain ⟨hmono, hqn⟩ :=
          ih (nutsDStep grad logp fexp rand u eps q0 p0 st)
        obtain ⟨hmono', hqn', _⟩ :=
          nutsDStep_accepted grad logp fexp rand u eps q0 p0 st
        refine ⟨hmono'.trans hmono, fun hacc => ?_⟩
        have hstep : (nutsDStep grad logp fexp rand u eps q0 p0 st).accepted
            = st.accepted := by omega
        rw [hqn (by omega), hqn' hstep]
      · exact ⟨le_rfl, fun _ => rfl⟩

theorem nutsIter_q_eq (grad : (Fin dim → F) → Fin dim → F)
    (logp : (Fin dim → F) → F) (fexp flog fsqrt : F → F)
    (fpow : F → F → F) (rand : ℕ → F) (prand : ℕ → Fin dim → F)
    (urand : ℕ → F) (delta : F) (adapt_steps : ℕ) (mu : F)
    (m : ℕ) (st : NutsIterState F dim) :
    (nutsIter grad logp fexp flog fsqrt fpow rand prand urand delta
        adapt_steps mu m st).q =
      (nutsDLoop grad logp fexp rand
        (urand m * fexp (-(hamiltonianF logp st.q (prand m)))) st.eps
        st.q (prand m) max_tree_depth
        ⟨st.q, prand m, st.q, prand m, st.q, prand m, 0, 1, 1,
          st.accepted, 0, 1, st.k⟩).qn
    ∧ (nutsIter grad logp fexp flog fsqrt fpow rand prand urand delta
        adapt_steps mu m st).accepted =
      (nutsDLoop grad logp fexp rand
        (urand m * fexp (-(hamiltonianF logp st.q (prand m)))) st.eps
        st.q (prand m) max_tree_depth
        ⟨st.q, prand m, st.q, prand m, st.q, prand m, 0, 1, 1,
          st.accepted, 0, 1, st.k⟩).accepted := by
  dsimp only [nutsIter]
  split_ifs with h <;> exact ⟨rfl, rfl⟩

theorem nutsIter_reject_duplicates (grad : (Fin dim → F) → Fin dim → F)
    (logp : (Fin dim → F) → F) (fexp flog fsqrt : F → F)
    (fpow : F → F → F) (rand : ℕ → F) (prand : ℕ → Fin dim → F)
    (urand : ℕ → F) (delta : F) (adapt_steps : ℕ) (mu : F)
    (m : ℕ) (st : NutsIterState F dim) :
    (nutsIter grad logp fexp flog fsqrt fpow rand prand urand delta
        adapt_steps mu m st).accepted = st.accepted →
      (nutsIter grad logp fexp flog fsqrt fpow rand prand urand delta
        adapt_steps mu m st).q = st.q := by
  intro hacc
  obtain ⟨hq, ha⟩ := nutsIter_q_eq grad logp fexp flog fsqrt fpow rand prand
    urand delta adapt_steps mu m st
  rw [hq]
  rw [ha] at hacc
  exact (nutsDLoop_accepted grad logp fexp rand _ st.eps st.q (prand m)
    max_tree_depth _).2 hacc

theorem nutsAllSamples_get (grad : (Fin dim → F) → Fin dim → F)
    (logp : (Fin dim → F) → F) (fexp flog fsqrt : F → F)
    (fpow : F → F → F) (rand : ℕ → F) (prand : ℕ → Fin dim → F)
    (urand : ℕ → F) (delta : F) (adapt_steps : ℕ)
    (x0 : Fin dim → F) (eps0 : F) (T i : ℕ) (h : i < T) :
    (nutsAllSamples grad logp fexp flog fsqrt fpow rand prand urand delta
        adapt_steps x0 eps0 T)[i]? =
      some ((nutsStateAt grad logp fexp flog fsqrt fpow rand prand urand
        delta adapt_steps x0 eps0 i).q) := by
  simp [nutsAllSamples, List.getElem?_map, List.getElem?_range, h]

/-- C2: for every total iteration count `T ≥ 1`, the internal chain
recorded before slicing (by MH, HMC and NUTS `sample`) has exactly `T`
entries; entry `0` is the initial state, and each later iteration appends
exactly one state — the proposed state on acceptance and a duplicate of
the previous state on rejection (for NUTS: the draw is unchanged whenever
the doubling loop accepted no subtree proposal, i.e. whenever the
`accepted` counter did not move). -/
theorem c2_chain_recording (fexp flog fsqrt : F → F) (fpow : F → F → F)
    (f : (Fin dim → F) → F) (sigma : F)
    (grad : (Fin dim → F) → Fin dim → F) (eps : F) (L : ℕ)
    (gauss prand : ℕ → Fin dim → F) (unif : ℕ → F) (rand : ℕ → F)
    (urand : ℕ → F) (delta : F) (adapt_steps : ℕ) (eps0 : F)
    (x0 : Fin dim → F) (T : ℕ) (hT : 1 ≤ T) :
    (mhAllSamples fexp f sigma gauss unif x0 T).length = T
    ∧ (mhAllSamples fexp f sigma gauss unif x0 T)[0]? = some x0
    ∧ (∀ i, i + 1 < T →
        (mhAllSamples fexp f sigma gauss unif x0 T)[i]? =
          some (mhState fexp f sigma gauss unif x0 i)
        ∧ (mhAllSamples fexp f sigma gauss unif x0 T)[i + 1]? =
          some (if mhAccepts fexp f sigma gauss unif x0 i
            then mhState fexp f sigma gauss unif x0 i + sigma • gauss (i + 1)
            else mhState fexp f sigma gauss unif x0 i))
    ∧ (hmcAllSamples fexp f grad eps L prand unif x0 T).length = T
    ∧ (hmcAllSamples fexp f grad eps L prand unif x0 T)[0]? = some x0
    ∧ (∀ i, i + 1 < T →
        (hmcAllSamples fexp f grad eps L prand unif x0 T)[i]? =
          some (hmcState fexp f grad eps L prand unif x0 i)
        ∧ (hmcAllSamples fexp f grad eps L prand unif x0 T)[i + 1]? =
          some (if hmcAccepts fexp f grad eps L prand unif x0 i
            then (HamiltonianMC.leapfrog grad eps L
              (hmcState fexp f grad eps L prand unif x0 i) (prand (i + 1))).1
            else hmcState fexp f grad eps L prand unif x0 i))
    ∧ (nutsAllSamples grad f fexp flog fsqrt fpow rand prand urand delta
        adapt_steps x0 eps0 T).length = T
    ∧ (nutsAllSamples grad f fexp flog fsqrt fpow rand prand urand delta
        adapt_steps x0 eps0 T)[0]? = some x0
    ∧ (∀ m, m + 1 < T →
        (nutsAllSamples grad f fexp flog fsqrt fpow rand prand urand delta
          adapt_steps x0 eps0 T)[m + 1]? =
          some ((nutsIter grad f fexp flog fsqrt fpow rand prand urand delta
            adapt_steps (flog (10 * eps0)) (m + 1)
            (nutsStateAt grad f fexp flog fsqrt fpow rand prand urand delta
              adapt_steps x0 eps0 m)).q))
    ∧ (∀ (m : ℕ) (st : NutsIterState F dim),
        (nutsIter grad f fexp flog fsqrt fpow rand prand urand delta
          adapt_steps (flog (10 * eps0)) m st).accepted = st.accepted →
        (nutsIter grad f fexp flog fsqrt fpow rand prand urand delta
          adapt_steps (flog (10 * eps0)) m st).q = st.q) := by
  refine ⟨by simp [mhAllSamples], ?_, fun i hi => ⟨?_, ?_⟩,
    by simp [hmcAllSamples], ?_, fun i hi => ⟨?_, ?_⟩,
    by simp [nutsAllSamples], ?_, fun m hm => ?_, ?_⟩
  · exact mhAllSamples_get fexp f sigma gauss unif x0 T 0 (by omega)
  · exact mhAllSamples_get fexp f sigma gauss unif x0 T i (by omega)
  · rw [mhAllSamples_get fexp f sigma gauss unif x0 T (i + 1) (by omega)]
    congr 1
    by_cases h : unif (i + 1) < mhAccept fexp f
        (mhState fexp f sigma gauss unif x0 i)
        (mhState fexp f sigma gauss unif x0 i + sigma • gauss (i + 1))
    · simp [mhState, mhAccepts, h]
    · simp [mhState, mhAccepts, h]
  · exact hmcAllSamples_get fexp f grad eps L prand unif x0 T 0 (by omega)
  · exact hmcAllSamples_get fexp f grad eps L prand unif x0 T i (by omega)
  · rw [hmcAllSamples_get fexp f grad eps L prand unif x0 T (i + 1) (by omega)]
    congr 1
    by_cases h : unif (i + 1) < pymin 1 (fexp
        (-(hamiltonianF f
            (HamiltonianMC.leapfrog grad eps L
              (hmcState fexp f grad eps L prand unif x0 i) (prand (i + 1))).1
            (HamiltonianMC.leapfrog grad eps L
              (hmcState fexp f grad eps L prand unif x0 i) (prand (i + 1))).2)
          + hamiltonianF f (hmcState fexp f grad eps L prand unif x0 i)
              (prand (i + 1))))
    · simp [hmcState, hmcAccepts, h]
    · simp [hmcState, hmcAccepts, h]
  · exact nutsAllSamples_get grad f fexp flog fsqrt fpow rand prand urand
      delta adapt_steps x0 eps0 T 0 (by omega)
  · rw [nutsAllSamples_get grad f fexp flog fsqrt fpow rand prand urand
      delta adapt_steps x0 eps0 T (m + 1) (by omega)]
    rfl
  · exact fun m st => nutsIter_reject_duplicates grad f fexp flog fsqrt fpow
      rand prand urand delta adapt_steps (flog (10 * eps0)) m st

theorem build_tree_nalpha (grad : (Fin dim → F) → Fin dim → F)
    (logp : (Fin dim → F) → F) (fexp : F → F) (rand : ℕ → F) :
    ∀ (j : ℕ) (q p : Fin dim → F) (u v eps : F) (q0 p0 : Fin dim → F)
      (k : ℕ),
      1 ≤ (build_tree grad logp fexp rand j q p u v eps q0 p0 k).1.nalpha
      ∧ (build_tree grad logp fexp rand j q p u v eps q0 p0 k).1.nalpha
          ≤ 2 ^ j := by
  intro j
  induction j with
  | zero => intro q p u v eps q0 p0 k; exact ⟨le_rfl, le_rfl⟩
  | succ j ih =>
      intro q p u v eps q0 p0 k
      have hpow : 2 ^ (j + 1) = 2 ^ j + 2 ^ j := by rw [pow_succ]; omega
      by_cases hs :
        (build_tree grad logp fexp rand j q p u v eps q0 p0 k).1.s = 1
      · by_cases hv : v = -1
        · obtain ⟨ha1, hb1⟩ := ih q p u v eps q0 p0 k
          obtain ⟨ha2, hb2⟩ := ih
            (build_tree grad logp fexp rand j q p u v eps q0 p0 k).1.qb
            (build_tree grad logp fexp rand j q p u v eps q0 p0 k).1.pb
            u v eps q0 p0
            (build_tree grad logp fexp rand j q p u v eps q0 p0 k).2
          simp only [build_tree, if_pos hs, if_pos hv]
          exact ⟨by omega, by omega⟩
        · obtain ⟨ha1, hb1⟩ := ih q p u v eps q0 p0 k
          obtain ⟨ha2, hb2⟩ := ih
            (build_tree grad logp fexp rand j q p u v eps q0 p0 k).1.qf
            (build_tree grad logp fexp rand j q p u v eps q0 p0 k).1.pf
            u v eps q0 p0
            (build_tree grad logp fexp rand j q p u v eps q0 p0 k).2
          simp only [build_tree, if_pos hs, if_neg hv]
          exact ⟨by omega, by omega⟩
      · obtain ⟨ha1, hb1⟩ := ih q p u v eps q0 p0 k
        simp only [build_tree, if_neg hs]
        exact ⟨ha1, by omega⟩

theorem nutsDLoop_guard_false (grad : (Fin dim → F) → Fin dim → F)
    (logp : (Fin dim → F) → F) (fexp : F → F) (rand : ℕ → F)
    (u eps : F) (q0 p0 : Fin dim → F) (d : ℕ) (st : DLoopState F dim)
    (h : ¬(st.s = 1 ∧ st.j < max_tree_depth)) :
    nutsDLoop grad logp fexp rand u eps q0 p0 d st = st := by
  cases d with
  | zero => rfl
  | succ d => rw [nutsDLoop, if_neg h]

theorem nutsDLoop_fuel_irrelevant (grad : (Fin dim → F) → Fin dim → F)
    (logp : (Fin dim → F) → F) (fexp : F → F) (rand : ℕ → F)
    (u eps : F) (q0 p0 : Fin dim → F) :
    ∀ (d₁ d₂ : ℕ) (st : DLoopState F dim),
      max_tree_depth - st.j ≤ d₁ → max_tree_depth - st.j ≤ d₂ →
      nutsDLoop grad logp fexp rand u eps q0 p0 d₁ st =
        nutsDLoop grad logp fexp rand u eps q0 p0 d₂ st := by
  intro d₁
  induction d₁ with
  | zero =>
      intro d₂ st h1 h2
      have hj : ¬(st.s = 1 ∧ st.j < max_tree_depth) := by
        rintro ⟨-, hlt⟩
        omega
      rw [nutsDLoop_guard_false grad logp fexp rand u eps q0 p0 d₂ st hj]
      rfl
  | succ d₁ ih =>
      intro d₂ st h1 h2
      by_cases hg : st.s = 1 ∧ st.j < max_tree_depth
      · have hj1 : max_tree_depth - st.j ≤ d₁ + 1 := h1
        cases d₂ with
        | zero => omega
        | succ d₂ =>
            rw [nutsDLoop, nutsDLoop, if_pos hg, if_pos hg]
            have hstep := (nutsDStep_accepted grad logp fexp rand u eps q0 p0
              st).2.2
            exact ih d₂ (nutsDStep grad logp fexp rand u eps q0 p0 st)
              (by omega) (by omega)
      · rw [nutsDLoop_guard_false grad logp fexp rand u eps q0 p0 _ st hg,
          nutsDLoop_guard_false grad logp fexp rand u eps q0 p0 _ st hg]

theorem nutsDLoop_j_le (grad : (Fin dim → F) → Fin dim → F)
    (logp : (Fin dim → F) → F) (fexp : F → F) (rand : ℕ → F)
    (u eps : F) (q0 p0 : Fin dim → F) :
    ∀ (d : ℕ) (st : DLoopState F dim), st.j ≤ max_tree_depth →
      (nutsDLoop grad logp fexp rand u eps q0 p0 d st).j ≤ max_tree_depth := by
  intro d
  induction d with
  | zero => exact fun st h => h
  | succ d ih =>
      intro st h
      rw [nutsDLoop]
      split_ifs with hg
      · have hstep := (nutsDStep_accepted grad logp fexp rand u eps q0 p0
          st).2.2
        exact ih (nutsDStep grad logp fexp rand u eps q0 p0 st) (by omega)
      · exact h

/-- C3: `NUTS.build_tree` terminates for every input — the recursion is
structural in the depth argument, and the number of base-case leapfrog
steps it performs (counted exactly by the returned `n_alpha`) is between
`1` and `2^depth` — and the per-iteration tree-doubling loop of
`NUTS.sample` stops after at most `max_tree_depth = 10` doublings even if
the no-U-turn criterion never triggers: starting from depth `j = 0`, any
fuel of at least `10` gives the identical result, and the final depth
never exceeds `10`. -/
theorem c3_termination (grad : (Fin dim → F) → Fin dim → F)
    (logp : (Fin dim → F) → F) (fexp : F → F) (rand : ℕ → F)
    (u eps : F) (q0 p0 : Fin dim → F) :
    (∀ (j : ℕ) (q p : Fin dim → F) (v : F) (k : ℕ),
      1 ≤ (build_tree grad logp fexp rand j q p u v eps q0 p0 k).1.nalpha
      ∧ (build_tree grad logp fexp rand j q p u v eps q0 p0 k).1.nalpha
          ≤ 2 ^ j)
    ∧ max_tree_depth = 10
    ∧ (∀ (d : ℕ) (st : DLoopState F dim), st.j = 0 → max_tree_depth ≤ d →
        nutsDLoop grad logp fexp rand u eps q0 p0 d st =
          nutsDLoop grad logp fexp rand u eps q0 p0 max_tree_depth st)
    ∧ (∀ (d : ℕ) (st : DLoopState F dim), st.j = 0 →
        (nutsDLoop grad logp fexp rand u eps q0 p0 d st).j
          ≤ max_tree_depth) := by
  refine ⟨fun j q p v k => build_tree_nalpha grad logp fexp rand j q p u v
    eps q0 p0 k, rfl, fun d st hj hd => ?_, fun d st hj => ?_⟩
  · exact nutsDLoop_fuel_irrelevant grad logp fexp rand u eps q0 p0 d
      max_tree_depth st (by omega) (by omega)
  · exact nutsDLoop_j_le grad logp fexp rand u eps q0 p0 d st (by omega)

/-- C4: the `depth = 0` base case of `NUTS.build_tree` takes exactly one
leapfrog step of size `v * epsilon`, marks the state valid (`n' = 1`) iff
`u < exp(-H')`, sets the continue flag `s' = 1` iff `u < exp(1000 - H')`
(the fixed numeric safety margin `1000`), computes
`alpha' = min(1, exp(H0 - H'))` with `H0 = H(q0, p0)`, and `n_alpha' = 1`;
all eight endpoint/proposal slots are the new point, and no `rand` draw is
consumed. -/
theorem c4_build_tree_base (grad : (Fin dim → F) → Fin dim → F)
    (logp : (Fin dim → F) → F) (fexp : F → F) (rand : ℕ → F)
    (q p : Fin dim → F) (u v eps : F) (q0 p0 : Fin dim → F) (k : ℕ) :
    build_tree grad logp fexp rand 0 q p u v eps q0 p0 k =
      (⟨(nutsLeapfrog grad (v * eps) q p).1, (nutsLeapfrog grad (v * eps) q p).2,
        (nutsLeapfrog grad (v * eps) q p).1, (nutsLeapfrog grad (v * eps) q p).2,
        (nutsLeapfrog grad (v * eps) q p).1, (nutsLeapfrog grad (v * eps) q p).2,
        (nutsLeapfrog grad (v * eps) q p).1, (nutsLeapfrog grad (v * eps) q p).2,
        if u < fexp (-(hamiltonianF logp (nutsLeapfrog grad (v * eps) q p).1
          (nutsLeapfrog grad (v * eps) q p).2)) then 1 else 0,
        if u < fexp (1000 - hamiltonianF logp (nutsLeapfrog grad (v * eps) q p).1
          (nutsLeapfrog grad (v * eps) q p).2) then 1 else 0,
        min 1 (fexp (hamiltonianF logp q0 p0 -
          hamiltonianF logp (nutsLeapfrog grad (v * eps) q p).1
            (nutsLeapfrog grad (v * eps) q p).2)),
        1⟩, k) := by
  simp only [build_tree, pymin_eq_min, neg_add_eq_sub]

theorem mul_indicators_eq_one (a : ℕ) (P Q : Prop) [Decidable P]
    [Decidable Q] :
    (a * (if P then 1 else 0) * (if Q then 1 else 0) = 1) ↔
      (a = 1 ∧ P ∧ Q) := by
  constructor
  · intro h
    split_ifs at h with hP hQ
    · exact ⟨by omega, hP, hQ⟩
    all_goals omega
  · rintro ⟨ha, hP, hQ⟩
    simp [ha, hP, hQ]

/-- C5: in both the recursive merge of `NUTS.build_tree` (for each
direction `v`) and the outer doubling step of `NUTS.sample` (for each
drawn direction), the continuation flag is recomputed as the subtree's
continue-flag multiplied by the two no-U-turn indicators on the updated
trajectory endpoints: with `Δ = q_fwd - q_bwd`, continue (flag `1`) iff
`Δ·p_bwd ≥ 0` and `Δ·p_fwd ≥ 0` and the subtree flag is `1`. -/
theorem c5_no_uturn_test (grad : (Fin dim → F) → Fin dim → F)
    (logp : (Fin dim → F) → F) (fexp : F → F) (rand : ℕ → F) :
    (∀ (j : ℕ) (q p : Fin dim → F) (u v eps : F) (q0 p0 : Fin dim → F)
        (k : ℕ),
      (build_tree grad logp fexp rand j q p u v eps q0 p0 k).1.s = 1 →
      v = -1 →
      ((build_tree grad logp fexp rand (j + 1) q p u v eps q0 p0 k).1.s =
        (build_tree grad logp fexp rand j
          (build_tree grad logp fexp rand j q p u v eps q0 p0 k).1.qb
          (build_tree grad logp fexp rand j q p u v eps q0 p0 k).1.pb
          u v eps q0 p0
          (build_tree grad logp fexp rand j q p u v eps q0 p0 k).2).1.s *
        (if 0 ≤ dotP
            ((build_tree grad logp fexp rand j q p u v eps q0 p0 k).1.qf -
              (build_tree grad logp fexp rand j
                (build_tree grad logp fexp rand j q p u v eps q0 p0 k).1.qb
                (build_tree grad logp fexp rand j q p u v eps q0 p0 k).1.pb
                u v eps q0 p0
                (build_tree grad logp fexp rand j q p u v eps q0 p0 k).2).1.qn)
            ((build_tree grad logp fexp rand j
              (build_tree grad logp fexp rand j q p u v eps q0 p0 k).1.qb
              (build_tree grad logp fexp rand j q p u v eps q0 p0 k).1.pb
              u v eps q0 p0
              (build_tree grad logp fexp rand j q p u v eps q0 p0 k).2).1.pn)
          then 1 else 0) *
        (if 0 ≤ dotP
            ((build_tree grad logp fexp rand j q p u v eps q0 p0 k).1.qf -
              (build_tree grad logp fexp rand j
                (build_tree grad logp fexp rand j q p u v eps q0 p0 k).1.qb
                (build_tree grad logp fexp rand j q p u v eps q0 p0 k).1.pb
                u v eps q0 p0
                (build_tree grad logp fexp rand j q p u v eps q0 p0 k).2).1.qn)
            ((build_tree grad logp fexp rand j q p u v eps q0 p0 k).1.pf)
          then 1 else 0))
      ∧ ((build_tree grad logp fexp rand (j + 1) q p u v eps q0 p0 k).1.s = 1
          ↔ ((build_tree grad logp fexp rand j
              (build_tree grad logp fexp rand j q p u v eps q0 p0 k).1.qb
              (build_tree grad logp fexp rand j q p u v eps q0 p0 k).1.pb
              u v eps q0 p0
              (build_tree grad logp fexp rand j q p u v eps q0 p0 k).2).1.s = 1
            ∧ 0 ≤ dotP
              ((build_tree grad logp fexp rand j q p u v eps q0 p0 k).1.qf -
                (build_tree grad logp fexp rand j
                  (build_tree grad logp fexp rand j q p u v eps q0 p0 k).1.qb
                  (build_tree grad logp fexp rand j q p u v eps q0 p0 k).1.pb
                  u v eps q0 p0
                  (build_tree grad logp fexp rand j q p u v eps q0 p0 k).2).1.qn)
              ((build_tree grad logp fexp rand j
                (build_tree grad logp fexp rand j q p u v eps q0 p0 k).1.qb
                (build_tree grad logp fexp rand j q p u v eps q0 p0 k).1.pb
                u v eps q0 p0
                (build_tree grad logp fexp rand j q p u v eps q0 p0 k).2).1.pn)
            ∧ 0 ≤ dotP
              ((build_tree grad logp fexp rand j q p u v eps q0 p0 k).1.qf -
                (build_tree grad logp fexp rand j
                  (build_tree grad logp fexp rand j q p u v eps q0 p0 k).1.qb
                  (build_tree grad logp fexp rand j q p u v eps q0 p0 k).1.pb
                  u v eps q0 p0
                  (build_tree grad logp fexp rand j q p u v eps q0 p0 k).2).1.qn)
              ((build_tree grad logp fexp rand j q p u v eps q0 p0 k).1.pf))))
    ∧ (∀ (j : ℕ) (q p : Fin dim → F) (u v eps : F) (q0 p0 : Fin dim → F)
        (k : ℕ),
      (build_tree grad logp fexp rand j q p u v eps q0 p0 k).1.s = 1 →
      v ≠ -1 →
      ((build_tree grad logp fexp rand (j + 1) q p u v eps q0 p0 k).1.s =
        (build_tree grad logp fexp rand j
          (build_tree grad logp fexp rand j q p u v eps q0 p0 k).1.qf
          (build_tree grad logp fexp rand j q p u v eps q0 p0 k).1.pf
          u v eps q0 p0
          (build_tree grad logp fexp rand j q p u v eps q0 p0 k).2).1.s *
        (if 0 ≤ dotP
            ((build_tree grad logp fexp rand j
                (build_tree grad logp fexp rand j q p u v eps q0 p0 k).1.qf
                (build_tree grad logp fexp rand j q p u v eps q0 p0 k).1.pf
                u v eps q0 p0
                (build_tree grad logp fexp rand j q p u v eps q0 p0 k).2).1.qf -
              (build_tree grad logp fexp rand j q p u v eps q0 p0 k).1.qb)
            ((build_tree grad logp fexp rand j q p u v eps q0 p0 k).1.pb)
          then 1 else 0) *
        (if 0 ≤ dotP
            ((build_tree grad logp fexp rand j
                (build_tree grad logp fexp rand j q p u v eps q0 p0 k).1.qf
                (build_tree grad logp fexp rand j q p u v eps q0 p0 k).1.pf
                u v eps q0 p0
                (build_tree grad logp fexp rand j q p u v eps q0 p0 k).2).1.qf -
              (build_tree grad logp fexp rand j q p u v eps q0 p0 k).1.qb)
            ((build_tree grad logp fexp rand j
              (build_tree grad logp fexp rand j q p u v eps q0 p0 k).1.qf
              (build_tree grad logp fexp rand j q p u v eps q0 p0 k).1.pf
              u v eps q0 p0
              (build_tree grad logp fexp rand j q p u v eps q0 p0 k).2).1.pf)
          then 1 else 0)))
    ∧ (∀ (u eps : F) (q0 p0 : Fin dim → F) (st : DLoopState F dim),
      rand st.k < 1 / 2 →
      (nutsDStep grad logp fexp rand u eps q0 p0 st).s =
        (build_tree grad logp fexp rand st.j st.qf st.pf u 1 eps q0 p0
          (st.k + 1)).1.s *
        (if 0 ≤ dotP
            ((build_tree grad logp fexp rand st.j st.qf st.pf u 1 eps q0 p0
              (st.k + 1)).1.qf - st.qb) st.pb
          then 1 else 0) *
        (if 0 ≤ dotP
            ((build_tree grad logp fexp rand st.j st.qf st.pf u 1 eps q0 p0
              (st.k + 1)).1.qf - st.qb)
            ((build_tree grad logp fexp rand st.j st.qf st.pf u 1 eps q0 p0
              (st.k + 1)).1.pf)
          then 1 else 0))
    ∧ (∀ (u eps : F) (q0 p0 : Fin dim → F) (st : DLoopState F dim),
      ¬rand st.k < 1 / 2 →
      (nutsDStep grad logp fexp rand u eps q0 p0 st).s =
        (build_tree grad logp fexp rand st.j st.qb st.pb u (-1) eps q0 p0
          (st.k + 1)).1.s *
        (if 0 ≤ dotP
            (st.qf - (build_tree grad logp fexp rand st.j st.qb st.pb u (-1)
              eps q0 p0 (st.k + 1)).1.qn)
            ((build_tree grad logp fexp rand st.j st.qb st.pb u (-1) eps q0 p0
              (st.k + 1)).1.pn)
          then 1 else 0) *
        (if 0 ≤ dotP
            (st.qf - (build_tree grad logp fexp rand st.j st.qb st.pb u (-1)
              eps q0 p0 (st.k + 1)).1.qn) st.pf
          then 1 else 0)) := by
  have hone : ¬((1 : F) = -1) := by norm_num
  refine ⟨fun j q p u v eps q0 p0 k hs hv => ?_,
    fun j q p u v eps q0 p0 k hs hv => ?_,
    fun u eps q0 p0 st hr => ?_, fun u eps q0 p0 st hr => ?_⟩
  · constructor
    · simp only [build_tree, if_pos hs, if_pos hv]
    · simp only [build_tree, if_pos hs, if_pos hv]
      exact mul_indicators_eq_one _ _ _
  · simp only [build_tree, if_pos hs, if_neg hv]
  · dsimp only [nutsDStep]
    simp only [if_pos hr, if_neg hone]
  · dsimp only [nutsDStep]
    simp only [if_neg hr, eq_self_iff_true, if_true]

/-- C9: in `NUTS.sample`, for every iteration `m ≤ adapt_steps` the
averaged step size `epsilon_bar` is updated with weight
`m ** (-kappa)` with `kappa = 0.75`, i.e. `log(epsilon_bar)` becomes
`m^(-0.75) * log(epsilon) + (1 - m^(-0.75)) * log(epsilon_bar)` where
`epsilon` is the freshly updated working step size; for every iteration
`m > adapt_steps` the working step size is frozen to `epsilon_bar` and
`epsilon_bar` is unchanged; and after `sample()` returns, the sampler
object's `epsilon` attribute equals the final `epsilon_bar`.
(`hlog` states that the abstract `np.log` inverts the abstract `np.exp`.) -/
theorem c9_dual_averaging (grad : (Fin dim → F) → Fin dim → F)
    (logp : (Fin dim → F) → F) (fexp flog fsqrt : F → F)
    (fpow : F → F → F) (rand : ℕ → F) (prand : ℕ → Fin dim → F)
    (urand : ℕ → F) (delta : F) (adapt_steps : ℕ) (mu : F)
    (hlog : ∀ x, flog (fexp x) = x) (m : ℕ) (st : NutsIterState F dim) :
    nutsKappa = (3 / 4 : F)
    ∧ (m ≤ adapt_steps →
        flog ((nutsIter grad logp fexp flog fsqrt fpow rand prand urand
            delta adapt_steps mu m st).epsbar) =
          fpow (m : F) (-(3 / 4)) *
            flog ((nutsIter grad logp fexp flog fsqrt fpow rand prand urand
              delta adapt_steps mu m st).eps) +
          (1 - fpow (m : F) (-(3 / 4))) * flog st.epsbar)
    ∧ (adapt_steps < m →
        (nutsIter grad logp fexp flog fsqrt fpow rand prand urand delta
            adapt_steps mu m st).eps = st.epsbar
        ∧ (nutsIter grad logp fexp flog fsqrt fpow rand prand urand delta
            adapt_steps mu m st).epsbar = st.epsbar)
    ∧ (∀ (nuts : NUTS F dim) (n_samples : ℕ) (x0 : Fin dim → F)
        (burn_in : ℕ) (eps0 : F),
        (NUTS.sampleResult nuts fexp flog fsqrt fpow rand prand urand
            adapt_steps n_samples x0 burn_in eps0).epsilon =
          (nutsStateAt nuts.grad_log_density nuts.log_density fexp flog fsqrt
            fpow rand prand urand nuts.delta adapt_steps x0 eps0
            (burn_in + n_samples - 1)).epsbar) := by
  refine ⟨rfl, fun hm => ?_, fun hm => ?_, fun nuts n_samples x0 burn_in eps0
    => rfl⟩
  · dsimp only [nutsIter]
    rw [if_pos hm]
    dsimp only
    rw [hlog, hlog]
    simp [nutsKappa]
  · dsimp only [nutsIter]
    rw [if_neg (by omega : ¬m ≤ adapt_steps)]
    exact ⟨rfl, rfl⟩

/-- C1 (corrected): with IEEE-754 semantics, a `-inf` log-density for the
proposal (finite current log-density) gives MH acceptance probability `0`
and, since `np.random.uniform() ≥ 0`, the chain duplicates the previous
state; likewise a `+inf` proposed Hamiltonian (finite current Hamiltonian)
in HMC.  But a `NaN` log-density or `NaN` proposed Hamiltonian makes the
acceptance probability `min(1.0, NaN) = 1.0` — Python's `min` keeps its
first argument when the comparison with `NaN` is false — so the proposed
state is accepted (`u < 1` for `u ~ Uniform[0,1)`), not rejected.  In
every case the computation is total: no exception is raised. -/
theorem c1_amended_pathology {S : Type} (qexp : ℚ → ℚ) (logp : S → Fp)
    (cur prop : S) (x Hc y : ℚ) :
    (logp prop = Fp.ninf → logp cur = Fp.fin x →
      mhAcceptFp qexp logp cur prop = Fp.fin 0
      ∧ (0 ≤ y → mhStepFp qexp logp cur prop (Fp.fin y) = cur))
    ∧ (logp prop = Fp.nan →
      mhAcceptFp qexp logp cur prop = Fp.fin 1
      ∧ (y < 1 → mhStepFp qexp logp cur prop (Fp.fin y) = prop))
    ∧ (hmcAcceptFp qexp (Fp.fin Hc) Fp.pinf = Fp.fin 0
      ∧ (0 ≤ y → hmcStepFp qexp (Fp.fin Hc) Fp.pinf cur prop (Fp.fin y) = cur))
    ∧ (hmcAcceptFp qexp (Fp.fin Hc) Fp.nan = Fp.fin 1
      ∧ (y < 1 → hmcStepFp qexp (Fp.fin Hc) Fp.nan cur prop (Fp.fin y)
          = prop)) := by
  refine ⟨fun hp hc => ?_, fun hp => ?_, ⟨?_, fun hy => ?_⟩, ⟨?_, fun hy => ?_⟩⟩
  · have hacc : mhAcceptFp qexp logp cur prop = Fp.fin 0 := by
      simp [mhAcceptFp, hp, hc, Fp.sub, Fp.add, Fp.neg, Fp.fexp, Fp.pyminFp,
        Fp.flt]
    refine ⟨hacc, fun hy => ?_⟩
    simp [mhStepFp, hacc, Fp.flt, not_lt.mpr hy]
  · have hacc : mhAcceptFp qexp logp cur prop = Fp.fin 1 := by
      cases hcur : logp cur <;>
        simp [mhAcceptFp, hp, hcur, Fp.sub, Fp.add, Fp.neg, Fp.fexp,
          Fp.pyminFp, Fp.flt]
    refine ⟨hacc, fun hy => ?_⟩
    simp [mhStepFp, hacc, Fp.flt, hy]
  · simp [hmcAcceptFp, Fp.add, Fp.neg, Fp.fexp, Fp.pyminFp, Fp.flt]
  · simp [hmcStepFp, hmcAcceptFp, Fp.add, Fp.neg, Fp.fexp, Fp.pyminFp,
      Fp.flt, not_lt.mpr hy]
  · simp [hmcAcceptFp, Fp.add, Fp.neg, Fp.fexp, Fp.pyminFp, Fp.flt]
  · simp [hmcStepFp, hmcAcceptFp, Fp.add, Fp.neg, Fp.fexp, Fp.pyminFp,
      Fp.flt, hy]

/-- C8 (corrected/amended): no configuration validation is performed —
`__init__` of all three samplers stores its arguments unchanged (including
non-positive `proposal_std`, `epsilon`, or `L`) and signals no error, and
`sample()` starts without any check (shown here for HMC: a full-length
chain of `N` rows is produced for every stored configuration, valid or
not). -/
theorem c8_amended_no_validation (f : (Fin dim → F) → F) (sigma : F)
    (logp : (Fin dim → F) → F) (grad : (Fin dim → F) → Fin dim → F)
    (eps : F) (L : ℕ) (dlt : F) :
    MetropolisHastings.init f sigma =
      (⟨f, sigma, none, none⟩ : MetropolisHastings F dim)
    ∧ HamiltonianMC.init logp grad eps L =
      (⟨logp, grad, eps, L, none, none⟩ : HamiltonianMC F dim)
    ∧ NUTS.init logp grad eps dlt =
      (⟨logp, grad, eps, dlt, none, none, []⟩ : NUTS F dim)
    ∧ (∀ (fexp : F → F) (prand : ℕ → Fin dim → F) (unif : ℕ → F)
        (N B : ℕ) (x0 : Fin dim → F),
        ((HamiltonianMC.init logp grad eps L).sample fexp prand unif N x0 B
          1).2.length = N) := by
  refine ⟨rfl, rfl, rfl, fun fexp prand unif N B x0 => ?_⟩
  show (pySlice (hmcAllSamples fexp logp grad eps L prand unif x0
    (B + N * 1)) B 1).length = N
  rw [pySlice_length _ _ _ le_rfl, Nat.div_one]
  simp [hmcAllSamples]

/-- C8 counterexample: the claim "invalid configurations fail fast at
construction or at the start of `sample()` with a descriptive
configuration error" is false — constructing MH with
`proposal_std = -1`, HMC with `epsilon = -1` and non-positive `L = 0`, or
NUTS with `epsilon = -1` succeeds, stores the invalid values unchanged,
and `sample()` then runs to completion (here HMC with `epsilon = -1`
returns a full 1-row chain) with no error anywhere. -/
theorem c8_counterexample_no_failfast :
    (MetropolisHastings.init (fun _ : Fin 0 → ℚ => (0 : ℚ))
      (-1)).proposal_std = -1
    ∧ (MetropolisHastings.init (fun _ : Fin 0 → ℚ => (0 : ℚ))
      (-1)).samples = none
    ∧ (HamiltonianMC.init (fun _ : Fin 0 → ℚ => (0 : ℚ)) (fun v => v)
      (-1) 0).epsilon = -1
    ∧ (HamiltonianMC.init (fun _ : Fin 0 → ℚ => (0 : ℚ)) (fun v => v)
      (-1) 0).L = 0
    ∧ (NUTS.init (fun _ : Fin 0 → ℚ => (0 : ℚ)) (fun v => v) (-1)
      (1 / 2)).epsilon = -1
    ∧ ((HamiltonianMC.init (fun _ : Fin 0 → ℚ => (0 : ℚ)) (fun v => v)
      (-1) 0).sample id (fun _ _ => 0) (fun _ => 0) 1 (fun _ => 0)
      0 1).2.length = 1 := by
  refine ⟨rfl, rfl, rfl, rfl, rfl, ?_⟩
  show (pySlice (hmcAllSamples id (fun _ : Fin 0 → ℚ => (0 : ℚ))
    (fun v => v) (-1) 0 (fun _ _ => 0) (fun _ => 0) (fun _ => 0)
    (0 + 1 * 1)) 0 1).length = 1
  rw [pySlice_length _ _ _ le_rfl, Nat.div_one]
  simp [hmcAllSamples]

/-- C1 counterexample: the claim "`log_density` returning `NaN` yields
acceptance probability 0 so the chain advances by duplicating the previous
state" is false at this concrete input: with a target whose log-density is
`NaN` at the proposed state and `0` at the current state, the MH
acceptance probability is `min(1.0, exp(NaN)) = 1.0` (not `0`), a uniform
draw of `0` accepts, and the chain moves to the pathological proposed
state instead of duplicating the previous one; the HMC acceptance
probability for a `NaN` proposed Hamiltonian is likewise `1.0`. -/
theorem c1_counterexample_nan_accepts :
    nanLogDensity true = Fp.nan
    ∧ mhAcceptFp id nanLogDensity false true = Fp.fin 1
    ∧ mhStepFp id nanLogDensity false true (Fp.fin 0) = true
    ∧ hmcAcceptFp id (Fp.fin 0) Fp.nan = Fp.fin 1
    ∧ hmcStepFp id (Fp.fin 0) Fp.nan false true (Fp.fin 0) = true := by
  refine ⟨rfl, ?_, ?_, ?_, ?_⟩ <;> decide

theorem c1_witness :
    ninfLogDensity true = Fp.ninf ∧ ninfLogDensity false = Fp.fin 0
    ∧ mhAcceptFp id ninfLogDensity false true = Fp.fin 0
    ∧ (0 : ℚ) ≤ 0
    ∧ mhStepFp id ninfLogDensity false true (Fp.fin 0) = false :=
  ⟨rfl, rfl,
    ((c1_amended_pathology id ninfLogDensity false true 0 0 0).1 rfl rfl).1,
    le_rfl,
    ((c1_amended_pathology id ninfLogDensity false true 0 0 0).1 rfl rfl).2
      le_rfl⟩

theorem c2_witness :
    1 ≤ 1
    ∧ (mhAllSamples (id : ℚ → ℚ) (fun _ => 0) 1 (fun _ _ => 0) (fun _ => 0)
        (fun _ : Fin 0 => (0 : ℚ)) 1).length = 1 :=
  ⟨le_rfl,
    (c2_chain_recording id id id (fun _ b => b) (fun _ => 0) 1 (fun v => v)
      1 1 (fun _ _ => 0) (fun _ _ => 0) (fun _ => 0) (fun _ => 0)
      (fun _ => 0) (1 / 2) 1 1 (fun _ : Fin 0 => (0 : ℚ)) 1 le_rfl).1⟩

theorem c3_witness :
    wDSt.j = 0 ∧ max_tree_depth ≤ 12
    ∧ nutsDLoop (fun v => v) (fun _ => (0 : ℚ)) id (fun _ => 0) 0 1 wVec
        wVec 12 wDSt =
      nutsDLoop (fun v => v) (fun _ => (0 : ℚ)) id (fun _ => 0) 0 1 wVec
        wVec max_tree_depth wDSt
    ∧ (nutsDLoop (fun v => v) (fun _ => (0 : ℚ)) id (fun _ => 0) 0 1 wVec
        wVec 12 wDSt).j ≤ max_tree_depth :=
  ⟨rfl, by decide,
    (c3_termination (fun v => v) (fun _ => (0 : ℚ)) id (fun _ => 0) 0 1 wVec
      wVec).2.2.1 12 wDSt rfl (by decide),
    (c3_termination (fun v => v) (fun _ => (0 : ℚ)) id (fun _ => 0) 0 1 wVec
      wVec).2.2.2 12 wDSt rfl⟩

theorem c5_witness :
    (0 : ℚ) < 1 / 2
    ∧ (nutsDStep (fun v => v) (fun _ => (0 : ℚ)) id (fun _ => 0) 0 1 wVec
        wVec wDSt).s =
      (build_tree (fun v => v) (fun _ => (0 : ℚ)) id (fun _ => 0) wDSt.j
        wDSt.qf wDSt.pf 0 1 1 wVec wVec (wDSt.k + 1)).1.s *
      (if 0 ≤ dotP
          ((build_tree (fun v => v) (fun _ => (0 : ℚ)) id (fun _ => 0)
            wDSt.j wDSt.qf wDSt.pf 0 1 1 wVec wVec (wDSt.k + 1)).1.qf -
            wDSt.qb) wDSt.pb
        then 1 else 0) *
      (if 0 ≤ dotP
          ((build_tree (fun v => v) (fun _ => (0 : ℚ)) id (fun _ => 0)
            wDSt.j wDSt.qf wDSt.pf 0 1 1 wVec wVec (wDSt.k + 1)).1.qf -
            wDSt.qb)
          ((build_tree (fun v => v) (fun _ => (0 : ℚ)) id (fun _ => 0)
            wDSt.j wDSt.qf wDSt.pf 0 1 1 wVec wVec (wDSt.k + 1)).1.pf)
        then 1 else 0) :=
  ⟨one_half_pos,
    (c5_no_uturn_test (fun v => v) (fun _ => (0 : ℚ)) id
      (fun _ => 0)).2.2.1 0 1 wVec wVec wDSt one_half_pos⟩

theorem c7_witness :
    1 ≤ 1 ∧ 1 ≤ 1 + 1 * 1
    ∧ ((MetropolisHastings.init (fun _ : Fin 0 → ℚ => (0 : ℚ)) 1).sample id
        (fun _ _ => 0) (fun _ => 0) 1 (fun _ => 0) 1 1).2.length = 1 :=
  ⟨le_rfl, by decide,
    (c7_sample_slicing id (fun _ : Fin 0 → ℚ => (0 : ℚ)) 1 (fun v => v) 1 1
      (fun _ _ => 0) (fun _ _ => 0) (fun _ => 0) 1 1 1 le_rfl (by decide)
      (fun _ => 0)).2.2.1⟩

theorem c9_witness :
    0 < 1
    ∧ (nutsIter (fun v => v) (fun _ => (0 : ℚ)) id id id (fun _ b => b)
        (fun _ => 0) (fun _ _ => 0) (fun _ => 0) (1 / 2) 0 0 1 wNSt).eps =
      wNSt.epsbar
    ∧ (nutsIter (fun v => v) (fun _ => (0 : ℚ)) id id id (fun _ b => b)
        (fun _ => 0) (fun _ _ => 0) (fun _ => 0) (1 / 2) 0 0 1 wNSt).epsbar =
      wNSt.epsbar :=
  ⟨by decide,
    ((c9_dual_averaging (fun v => v) (fun _ => (0 : ℚ)) id id id
      (fun _ b => b) (fun _ => 0) (fun _ _ => 0) (fun _ => 0) (1 / 2) 0 0
      (fun _ => rfl) 1 wNSt).2.2.1 (by decide)).1,
    ((c9_dual_averaging (fun v => v) (fun _ => (0 : ℚ)) id id id
      (fun _ b => b) (fun _ => 0) (fun _ _ => 0) (fun _ => 0) (1 / 2) 0 0
      (fun _ => rfl) 1 wNSt).2.2.1 (by decide)).2⟩

theorem c10_witness :
    1 ≤ 1 + 0 * 1
    ∧ ((mhAcceptedCount (id : ℚ → ℚ) (fun _ => 0) 1 (fun _ _ => 0)
        (fun _ => 0) (fun _ : Fin 0 => (0 : ℚ)) (1 + 0 * 1 - 1) : ℕ) : ℚ) /
        ((1 + 0 * 1 : ℕ) : ℚ) < 1 :=
  ⟨by decide,
    (c10_acceptance_rate_lt_one id (fun _ => 0) 1 (fun v => v) 1 1
      (fun _ _ => 0) (fun _ _ => 0) (fun _ => 0) 0 1 1 (by decide)
      (fun _ => 0)).2.2.2.1⟩

end ClaimTheorems
